import Mathlib

/-!
# Verification of the seed `App` dispatch / render-scheduling engine

Shallow embedding of `src/app.rs` of the `seed` repository: the effect
queue processor (`process_cmd_and_msg_queue`, `process_queue_message`,
`process_queue_global_message`, `process_queue_cmd`), the render
scheduler (`schedule_render`, `cancel_scheduled_render`), the renderer
(`rerender_vdom`), the bootstrap (`bootstrap_vdom`) and the `Clone`
implementation for `App`.

Modelling conventions:
* `Rc<RefCell<...>>` mutable state becomes an explicit `AppData` record
  threaded through every function; borrow panics / `unwrap` panics of
  the source become `Option.none` results.
* Asynchronous futures (`LocalFutureObj<Result<Ms, Ms>>`) are embedded
  as their eventual result `Except Ms Ms`; spawning a command appends
  it to a `pendingCmds` list (the host's task queue) and its host-side
  completion is the separate function `complete_cmd`, which replays the
  closure spawned by the source's `process_queue_cmd`.
* The host's `requestAnimationFrame` is modelled by storing a handle and
  by the host-side `fire_animation_frame`; `performance.now()` is an
  abstract monotone clock `clock : Nat → Nat` sampled at `ticks`.
* Observable actions (listener invocations, update calls, render
  requests, renders) are appended to a `trace` inside the state, so the
  theorems can speak about counts and ordering of events.
* The mutually recursive drain (`process_cmd_and_msg_queue` can call
  `rerender_vdom`, which drains post-render callbacks through the queue
  again) is made total with a fuel parameter; `none` from fuel
  exhaustion is distinguished from real panics only through the
  theorems' fuel hypotheses.
-/

namespace Seed

/-- `ShouldRender` from `src/app.rs`: determines if an update should cause
the `VDom` to rerender or not. -/
inductive ShouldRender where
  | Render
  | ForceRenderNow
  | Skip
  deriving DecidableEq, Repr

/-- A host DOM node (children of the mount point). External collaborator of
`app.rs`, modelled structurally. -/
inductive DomNode where
  | element (tag : String) (children : List DomNode)
  | text (s : String)

/-- A virtual-DOM node (`Node<Ms>` from the `virtual_dom` module, with the
element case inlined).  `wsBound` records whether a `web_sys` host node has
been associated with the node (`node_ws` in the source). -/
inductive Node (Ms : Type) where
  | Element (tag : String) (children : List (Node Ms)) (wsBound : Bool)
  | Text (text : String) (wsBound : Bool)
  | Empty

/-- `Effect<Ms, GMs>` from `src/app/effects.rs` (not under `src/`; variants
and their use are visible throughout `src/app.rs`).  A command future is
embedded as its eventual `Result`, i.e. `Except`. -/
inductive Effect (Ms GMs : Type) where
  | Msg (msg : Ms)
  | GMsg (gMsg : GMs)
  | Cmd (cmd : Except Ms Ms)
  | GCmd (gCmd : Except GMs GMs)

/-- A command handed to the host's asynchronous scheduler by
`process_queue_cmd` / `process_queue_global_cmd`, waiting for its one-tick
deferral and execution. -/
inductive PendingCmd (Ms GMs : Type) where
  | cmd (c : Except Ms Ms)
  | gCmd (c : Except GMs GMs)

/-- Observable events of one run, recorded in order of occurrence. -/
inductive Event (Ms GMs : Type) where
  | listenerCalled (i : Nat) (msg : Ms)
  | updateFnCalled (msg : Ms)
  | sinkFnCalled (gMsg : GMs)
  | updateCalled (msg : Ms)
  | sinkCalled (gMsg : GMs)
  | renderRequested (handle : Nat)
  | renderCancelled (handle : Nat)
  | rendered (timestamp : Nat) (delta : Option Int)
  | cmdSpawned
  | gCmdSpawned

/-- Modelled from the spec: `OrdersContainer` (the `src/app/orders.rs`
module is not under `src/`).  It accumulates the render directive — the
spec fixes the default to `Render` ("decided once per update/sink call
(default `Render`)") — the queue of further effects, and the registered
post-render callbacks, each a function of the optional timestamp delta. -/
structure OrdersContainer (Ms GMs : Type) where
  should_render : ShouldRender := ShouldRender.Render
  effects : List (Effect Ms GMs) := []
  after_next_render : List (Option Int → Ms) := []

/-- `OrdersContainer::new`: the fresh orders object handed to every
update/sink call, with the spec's default directive `Render`, no effects
and no post-render callbacks. -/
def OrdersContainer.new (Ms GMs : Type) : OrdersContainer Ms GMs :=
  {}

/-- `AppCfg` from `src/app/cfg.rs`, restricted to what `src/app.rs` reads:
the update function, the optional sink function, the view function, the
optional window-events function (only its presence matters here) and — as
a stand-in for the host — the monotone clock behind `performance.now()`.
The Rust update function mutates the model and the orders in place; here
it returns the new model together with the filled orders. -/
structure AppCfg (Ms Mdl GMs : Type) where
  update : Ms → Mdl → Mdl × OrdersContainer Ms GMs
  sink : Option (GMs → Mdl → Mdl × OrdersContainer Ms GMs)
  view : Mdl → List (Node Ms)
  window_events : Bool
  clock : Nat → Nat

/-- `AppData` from `src/app/data.rs` (fields as initialised in
`App::new`), together with the host-visible pieces the claims need: the
mount point's children, the clock tick counter, the next fresh
animation-frame handle, the host task queue of spawned commands, and the
event trace.  Message listeners are observation-only (`Fn(&Ms)`), so only
their number is kept; listener `i` is the `i`-th registered one. -/
structure AppData (Ms Mdl GMs : Type) where
  model : Option Mdl
  main_el_vdom : Option (Node Ms)
  msg_listeners : Nat
  scheduled_render_handle : Option Nat
  after_next_render_callbacks : List (Option Int → Ms)
  render_timestamp : Option Nat
  mountChildren : List DomNode
  ticks : Nat
  next_handle : Nat
  pendingCmds : List (PendingCmd Ms GMs)
  trace : List (Event Ms GMs)

variable {Ms Mdl GMs : Type}

/-- `App::add_message_listener`: push the listener at the back of
`msg_listeners` (registration order). -/
def add_message_listener (s : AppData Ms Mdl GMs) : AppData Ms Mdl GMs :=
  { s with msg_listeners := s.msg_listeners + 1 }

/-- `App::schedule_render`: if no render is pending, request an animation
frame (fresh cancellable handle) and store the handle; otherwise do
nothing. -/
def schedule_render (s : AppData Ms Mdl GMs) : AppData Ms Mdl GMs :=
  match s.scheduled_render_handle with
  | some _ => s
  | none =>
    { s with
      scheduled_render_handle := some s.next_handle
      next_handle := s.next_handle + 1
      trace := s.trace ++ [Event.renderRequested s.next_handle] }

/-- `App::cancel_scheduled_render`: cancel the animation-frame request by
dropping the stored handle (a no-op when none is stored). -/
def cancel_scheduled_render (s : AppData Ms Mdl GMs) : AppData Ms Mdl GMs :=
  match s.scheduled_render_handle with
  | none => s
  | some h =>
    { s with
      scheduled_render_handle := none
      trace := s.trace ++ [Event.renderCancelled h] }

/-- `App::setup_window_listeners`: when a window-events function is
configured it is applied to `model.borrow().as_ref().unwrap()` — a panic
(`none`) when the model is absent; the listener diffing itself happens in
the external `patch` module and has no observable effect here. -/
def setup_window_listeners (cfg : AppCfg Ms Mdl GMs) (s : AppData Ms Mdl GMs) :
    Option (AppData Ms Mdl GMs) :=
  if cfg.window_events then
    match s.model with
    | none => none
    | some _ => some s
  else
    some s

/-- `App::process_queue_cmd`: hand the command to the host's asynchronous
scheduler (spawn `NextTick` then the future); nothing else happens
synchronously. -/
def process_queue_cmd (s : AppData Ms Mdl GMs) (c : Except Ms Ms) :
    AppData Ms Mdl GMs :=
  { s with
    pendingCmds := s.pendingCmds ++ [PendingCmd.cmd c]
    trace := s.trace ++ [Event.cmdSpawned] }

/-- `App::process_queue_global_cmd`: the global-channel analogue of
`process_queue_cmd`. -/
def process_queue_global_cmd (s : AppData Ms Mdl GMs) (c : Except GMs GMs) :
    AppData Ms Mdl GMs :=
  { s with
    pendingCmds := s.pendingCmds ++ [PendingCmd.gCmd c]
    trace := s.trace ++ [Event.gCmdSpawned] }

/-- `VecDeque::pop_front` on the effect queue. -/
def dequePopFront (q : List (Effect Ms GMs)) :
    Option (Effect Ms GMs × List (Effect Ms GMs)) :=
  match q with
  | [] => none
  | e :: rest => some (e, rest)

/-- `VecDeque::append`: move all new effects to the back of the queue. -/
def dequeAppendBack (q newEffects : List (Effect Ms GMs)) :
    List (Effect Ms GMs) :=
  q ++ newEffects

mutual

/-- `App::process_cmd_and_msg_queue`: pop effects front-to-back until the
queue is empty; messages and global messages are processed and the effects
they produce appended at the back; commands are handed to asynchronous
scheduling. -/
def process_cmd_and_msg_queue (fuel : Nat) (cfg : AppCfg Ms Mdl GMs)
    (s : AppData Ms Mdl GMs) (queue : List (Effect Ms GMs)) :
    Option (AppData Ms Mdl GMs) :=
  match fuel with
  | 0 => none
  | fuel + 1 =>
    match dequePopFront queue with
    | none => some s
    | some (effect, rest) =>
      match effect with
      | Effect.Msg msg =>
        match process_queue_message fuel cfg s msg with
        | none => none
        | some (s2, newEffects) =>
          process_cmd_and_msg_queue fuel cfg s2 (dequeAppendBack rest newEffects)
      | Effect.GMsg gMsg =>
        match process_queue_global_message fuel cfg s gMsg with
        | none => none
        | some (s2, newEffects) =>
          process_cmd_and_msg_queue fuel cfg s2 (dequeAppendBack rest newEffects)
      | Effect.Cmd c =>
        process_cmd_and_msg_queue fuel cfg (process_queue_cmd s c) rest
      | Effect.GCmd c =>
        process_cmd_and_msg_queue fuel cfg (process_queue_global_cmd s c) rest

/-- `App::process_queue_message`: invoke every message listener in
registration order, run the update function on the unwrapped model with a
fresh orders object, re-derive window listeners, apply the render
directive, and return the accumulated effects.  Post-render callbacks
registered through the orders are appended to
`after_next_render_callbacks` (done by the orders object in the missing
`orders.rs`; net effect is the append). -/
def process_queue_message (fuel : Nat) (cfg : AppCfg Ms Mdl GMs)
    (s : AppData Ms Mdl GMs) (message : Ms) :
    Option (AppData Ms Mdl GMs × List (Effect Ms GMs)) :=
  match fuel with
  | 0 => none
  | fuel + 1 =>
    match s.model with
    | none => none
    | some mdl =>
      let s1 := { s with
        trace := s.trace ++
          (List.range s.msg_listeners).map (fun i => Event.listenerCalled i message) }
      let res := cfg.update message mdl
      let orders := res.2
      let s2 := { s1 with
        model := some res.1
        trace := s1.trace ++ [Event.updateFnCalled message]
        after_next_render_callbacks :=
          s1.after_next_render_callbacks ++ orders.after_next_render }
      match setup_window_listeners cfg s2 with
      | none => none
      | some s3 =>
        match orders.should_render with
        | ShouldRender.Render => some (schedule_render s3, orders.effects)
        | ShouldRender.ForceRenderNow =>
          match rerender_vdom fuel cfg (cancel_scheduled_render s3) with
          | none => none
          | some s4 => some (s4, orders.effects)
        | ShouldRender.Skip => some (s3, orders.effects)

/-- `App::process_queue_global_message`: like `process_queue_message` but
without listeners and through the optional sink function; when no sink is
configured the fresh orders object is left untouched (so the directive
stays the default). -/
def process_queue_global_message (fuel : Nat) (cfg : AppCfg Ms Mdl GMs)
    (s : AppData Ms Mdl GMs) (gMessage : GMs) :
    Option (AppData Ms Mdl GMs × List (Effect Ms GMs)) :=
  match fuel with
  | 0 => none
  | fuel + 1 =>
    let step :=
      match cfg.sink with
      | none => some (s, OrdersContainer.new Ms GMs)
      | some sinkFn =>
        match s.model with
        | none => none
        | some mdl =>
          let res := sinkFn gMessage mdl
          some ({ s with
            model := some res.1
            trace := s.trace ++ [Event.sinkFnCalled gMessage]
            after_next_render_callbacks :=
              s.after_next_render_callbacks ++ res.2.after_next_render }, res.2)
    match step with
    | none => none
    | some (s1, orders) =>
      match setup_window_listeners cfg s1 with
      | none => none
      | some s2 =>
        match orders.should_render with
        | ShouldRender.Render => some (schedule_render s2, orders.effects)
        | ShouldRender.ForceRenderNow =>
          match rerender_vdom fuel cfg (cancel_scheduled_render s2) with
          | none => none
          | some s3 => some (s3, orders.effects)
        | ShouldRender.Skip => some (s2, orders.effects)

/-- `App::rerender_vdom`: read a new timestamp from the host clock, build
the new tree from the view of the unwrapped model, take the previous tree
(panic when missing), patch the mount point, store the new tree, compute
the timestamp delta (absent on the first render), store the new
timestamp, then drain the post-render callbacks through the effect
queue. -/
def rerender_vdom (fuel : Nat) (cfg : AppCfg Ms Mdl GMs)
    (s : AppData Ms Mdl GMs) : Option (AppData Ms Mdl GMs) :=
  match fuel with
  | 0 => none
  | fuel + 1 =>
    let new_render_timestamp := cfg.clock s.ticks
    match s.model with
    | none => none
    | some mdl =>
      let newChildren := cfg.view mdl
      match s.main_el_vdom with
      | none => none
      | some _old =>
        let timestamp_delta := s.render_timestamp.map
          (fun old_ts => (new_render_timestamp : Int) - (old_ts : Int))
        let callbacks := s.after_next_render_callbacks
        let s1 := { s with
          ticks := s.ticks + 1
          main_el_vdom := some (Node.Element "placeholder" newChildren true)
          render_timestamp := some new_render_timestamp
          after_next_render_callbacks := ([] : List (Option Int → Ms))
          trace := s.trace ++ [Event.rendered new_render_timestamp timestamp_delta] }
        process_cmd_and_msg_queue fuel cfg s1
          (callbacks.map (fun callback => Effect.Msg (callback timestamp_delta)))

end

/-- `App::update`: push the message onto a fresh queue and drain it. -/
def update (fuel : Nat) (cfg : AppCfg Ms Mdl GMs) (s : AppData Ms Mdl GMs)
    (message : Ms) : Option (AppData Ms Mdl GMs) :=
  process_cmd_and_msg_queue fuel cfg
    { s with trace := s.trace ++ [Event.updateCalled message] }
    [Effect.Msg message]

/-- `App::sink`: push the global message onto a fresh queue and drain it. -/
def sink (fuel : Nat) (cfg : AppCfg Ms Mdl GMs) (s : AppData Ms Mdl GMs)
    (gMsg : GMs) : Option (AppData Ms Mdl GMs) :=
  process_cmd_and_msg_queue fuel cfg
    { s with trace := s.trace ++ [Event.sinkCalled gMsg] }
    [Effect.GMsg gMsg]

/-- `cmd.await.unwrap_or_else(|err_msg| err_msg)`: a command resolves to
the message of whichever side occurred. -/
def collapseResult (c : Except Ms Ms) : Ms :=
  match c with
  | Except.ok m => m
  | Except.error m => m

/-- Host-side completion of a spawned command: the closure spawned by
`process_queue_cmd` awaits the future, collapses the `Result` and calls
`App::update` with the resulting message (after the `NextTick`
deferral). -/
def complete_cmd (fuel : Nat) (cfg : AppCfg Ms Mdl GMs)
    (s : AppData Ms Mdl GMs) (c : Except Ms Ms) :
    Option (AppData Ms Mdl GMs) :=
  update fuel cfg s (collapseResult c)

/-- Host-side firing of the scheduled animation frame: the closure stored
by `schedule_render` takes the handle and rerenders; when the handle was
dropped (`cancel_scheduled_render`) the callback was cancelled and nothing
runs. -/
def fire_animation_frame (fuel : Nat) (cfg : AppCfg Ms Mdl GMs)
    (s : AppData Ms Mdl GMs) : Option (AppData Ms Mdl GMs) :=
  match s.scheduled_render_handle with
  | none => some s
  | some _ =>
    rerender_vdom fuel cfg { s with scheduled_render_handle := none }

/-- `MountType` from `src/app/builder.rs` (visible through its use in
`bootstrap_vdom`): mount fresh (`Append`) or adopt existing markup
(`Takeover`). -/
inductive MountType where
  | Append
  | Takeover
  deriving DecidableEq, Repr

mutual

/-- `From<&web_sys::Element> for El`: read one host node into a
virtual-DOM node in document order, with no `web_sys` binding yet. -/
def el_from_dom : DomNode → Node Ms
  | DomNode.element tag children => Node.Element tag (els_from_dom children) false
  | DomNode.text str => Node.Text str false

/-- Read a host child list into virtual-DOM nodes, preserving document
order. -/
def els_from_dom : List DomNode → List (Node Ms)
  | [] => []
  | d :: ds => el_from_dom d :: els_from_dom ds

end

/-- A text node whose content is pure whitespace (a formatting artifact,
not authored content); the empty string trims to empty as well. -/
def is_ws_text : Node Ms → Bool
  | Node.Text str _ => str.all Char.isWhitespace
  | _ => false

mutual

/-- Modelled from the spec: `El::strip_ws_nodes_from_self_and_children`
(the `virtual_dom` module is not under `src/`): discard pure-whitespace
text nodes from the node's children and recursively from all
descendants. -/
def strip_ws_node : Node Ms → Node Ms
  | Node.Element tag children b => Node.Element tag (strip_ws_nodes children) b
  | Node.Text str b => Node.Text str b
  | Node.Empty => Node.Empty

/-- Whitespace-stripping on a child list: whitespace-only text nodes are
dropped, the rest are kept in order and stripped recursively. -/
def strip_ws_nodes : List (Node Ms) → List (Node Ms)
  | [] => []
  | n :: ns =>
    if is_ws_text n then strip_ws_nodes ns
    else strip_ws_node n :: strip_ws_nodes ns

end

mutual

/-- Modelled from the spec: `virtual_dom_bridge::assign_ws_nodes_to_el`
(the bridge module is not under `src/`): create a `web_sys` node for the
node and all its descendants, i.e. bind a host-node reference to each
adopted node. -/
def assign_ws_node : Node Ms → Node Ms
  | Node.Element tag children _ => Node.Element tag (assign_ws_nodes children) true
  | Node.Text str _ => Node.Text str true
  | Node.Empty => Node.Empty

/-- Host-node binding over a child list. -/
def assign_ws_nodes : List (Node Ms) → List (Node Ms)
  | [] => []
  | n :: ns => assign_ws_node n :: assign_ws_nodes ns

end

mutual

/-- The host node a virtual node renders to when attached
(`virtual_dom_bridge::attach_el_and_children` / `attach_text_node`);
`Empty` attaches nothing. -/
def node_to_dom : Node Ms → Option DomNode
  | Node.Element tag children _ => some (DomNode.element tag (nodes_to_dom children))
  | Node.Text str _ => some (DomNode.text str)
  | Node.Empty => none

/-- Host rendering of a child list, in order, skipping `Empty` nodes. -/
def nodes_to_dom : List (Node Ms) → List DomNode
  | [] => []
  | n :: ns =>
    match node_to_dom n with
    | some d => d :: nodes_to_dom ns
    | none => nodes_to_dom ns

end

/-- A host text node whose content is pure whitespace. -/
def is_ws_dom : DomNode → Bool
  | DomNode.text str => str.all Char.isWhitespace
  | _ => false

mutual

/-- Direct whitespace-stripping on host nodes: the pre-existing content
with pure-whitespace text nodes removed, in original document order. -/
def dom_strip : DomNode → DomNode
  | DomNode.element tag children => DomNode.element tag (dom_strip_list children)
  | DomNode.text str => DomNode.text str

/-- Whitespace-stripping on a host child list, preserving order. -/
def dom_strip_list : List DomNode → List DomNode
  | [] => []
  | d :: ds =>
    if is_ws_dom d then dom_strip_list ds
    else dom_strip d :: dom_strip_list ds

end

/-- The children of a virtual node (`el.children`). -/
def nodeChildren : Node Ms → List (Node Ms)
  | Node.Element _ children _ => children
  | _ => []

/-- `App::bootstrap_vdom`: build a placeholder root; on `Takeover`, read
the mount point's subtree into a virtual tree, strip whitespace-only text
nodes, adopt the children, bind fresh host nodes to them, remove every
existing child from the mount point, then attach each adopted top-level
node back to the mount point in order (elements with their whole subtree
and listeners, text nodes directly, `Empty` skipped).  On `Append`,
return the empty placeholder and leave the mount point alone. -/
def bootstrap_vdom (s : AppData Ms Mdl GMs) (mount_type : MountType) :
    Node Ms × AppData Ms Mdl GMs :=
  match mount_type with
  | MountType.Append => (Node.Element "placeholder" [] false, s)
  | MountType.Takeover =>
    let dom_nodes : Node Ms :=
      strip_ws_node (Node.Element "placeholder" (els_from_dom s.mountChildren) false)
    let new0 : Node Ms := Node.Element "placeholder" (nodeChildren dom_nodes) false
    let new1 := assign_ws_node new0
    let s1 := { s with mountChildren := ([] : List DomNode) }
    let s2 := { s1 with mountChildren := nodes_to_dom (nodeChildren new1) }
    (new1, s2)

mutual

/-- Whether a node and all its descendants carry a host-node binding. -/
def node_ws_bound : Node Ms → Bool
  | Node.Element _ children b => b && nodes_ws_bound children
  | Node.Text _ b => b
  | Node.Empty => true

/-- Whether every node of a child list is host-bound throughout. -/
def nodes_ws_bound : List (Node Ms) → Bool
  | [] => true
  | n :: ns => node_ws_bound n && nodes_ws_bound ns

end

/-- `AppInitCfg` from `src/app/cfg.rs`: the one-shot init configuration
(mount type plus the boxed after-mount hook, here irrelevant and kept
abstract as a tag). -/
structure AppInitCfg where
  mount_type : MountType
  deriving DecidableEq, Repr

/-- The `App` handle: the one-shot `init_cfg`, and the two
reference-counted pointers `cfg : Rc<AppCfg>` and `data : Rc<AppData>`,
modelled by their pointer identities — two handles with equal pointer ids
share the same underlying object, so an operation through either mutates
the same state. -/
structure App where
  init_cfg : Option AppInitCfg
  cfg : Nat
  data : Nat
  deriving DecidableEq, Repr

/-- `impl Clone for App`: duplicate the two `Rc` pointers and set
`init_cfg` to `None`. -/
def App.clone (app : App) : App :=
  { init_cfg := none, cfg := app.cfg, data := app.data }

/-- The first step of `App::run`: `self.init_cfg.take().expect(...)` —
consume the one-shot init configuration, a fatal panic (`none`) when it is
absent. -/
def App.run_take_init_cfg (app : App) : Option (AppInitCfg × App) :=
  match app.init_cfg with
  | none => none
  | some initCfg => some (initCfg, { app with init_cfg := none })

/-- Modelled from the spec: the EffectQueue drain as §4.2 describes it —
"Pops effects front-to-back. `LocalMessage` → run `process_queue_message`,
append its resulting effects to the back of the same queue.
`GlobalMessage` → `process_queue_global_message`, same append behavior.
`Command`/`GlobalCommand` → handed to asynchronous scheduling; they do not
themselves append effects synchronously", continuing until the queue is
empty.  Written against plain list pattern matching, to be compared with
the source's `VecDeque`-based loop. -/
def spec_fifo_drain (fuel : Nat) (cfg : AppCfg Ms Mdl GMs)
    (s : AppData Ms Mdl GMs) (queue : List (Effect Ms GMs)) :
    Option (AppData Ms Mdl GMs) :=
  match fuel with
  | 0 => none
  | fuel + 1 =>
    match queue with
    | [] => some s
    | Effect.Msg msg :: rest =>
      match process_queue_message fuel cfg s msg with
      | none => none
      | some (s2, produced) => spec_fifo_drain fuel cfg s2 (rest ++ produced)
    | Effect.GMsg gMsg :: rest =>
      match process_queue_global_message fuel cfg s gMsg with
      | none => none
      | some (s2, produced) => spec_fifo_drain fuel cfg s2 (rest ++ produced)
    | Effect.Cmd c :: rest =>
      spec_fifo_drain fuel cfg (process_queue_cmd s c) rest
    | Effect.GCmd c :: rest =>
      spec_fifo_drain fuel cfg (process_queue_global_cmd s c) rest

/-- The messages dispatched through fresh `App::update` calls, in trace
order.  Queue-internal message processing is not a dispatch: only the
public entry point `update` (used by the mailbox, by completed commands
and by routing callbacks) is. -/
def dispatchedMsgs (t : List (Event Ms GMs)) : List Ms :=
  t.filterMap fun e =>
    match e with
    | Event.updateCalled m => some m
    | _ => none

/-- The number of animation-frame (coalesced render) requests in a
trace. -/
def countRaf (t : List (Event Ms GMs)) : Nat :=
  t.countP fun e =>
    match e with
    | Event.renderRequested _ => true
    | _ => false

/-- The number of completed renders in a trace. -/
def countRendered (t : List (Event Ms GMs)) : Nat :=
  t.countP fun e =>
    match e with
    | Event.rendered _ _ => true
    | _ => false

/-- A sequence of `App::update` calls, one per message, front to back. -/
def update_seq (fuel : Nat) (cfg : AppCfg Ms Mdl GMs) (s : AppData Ms Mdl GMs) :
    List Ms → Option (AppData Ms Mdl GMs)
  | [] => some s
  | m :: ms =>
    match update fuel cfg s m with
    | none => none
    | some s2 => update_seq fuel cfg s2 ms

/-- The state reached by steps 1–3 of `process_queue_message` (listener
notifications recorded, update function applied to the unwrapped model,
post-render callbacks registered, window listeners re-derived), before
the render directive is applied. -/
def post_update_state (cfg : AppCfg Ms Mdl GMs) (s : AppData Ms Mdl GMs)
    (msg : Ms) (mdl : Mdl) : AppData Ms Mdl GMs :=
  { s with
    model := some (cfg.update msg mdl).1
    trace := (s.trace ++
        (List.range s.msg_listeners).map fun i => Event.listenerCalled i msg) ++
      [Event.updateFnCalled msg]
    after_next_render_callbacks :=
      s.after_next_render_callbacks ++ (cfg.update msg mdl).2.after_next_render }

/-- The timestamp delta `rerender_vdom` hands to post-render callbacks:
absent before the first render, otherwise new minus stored timestamp. -/
def render_delta (cfg : AppCfg Ms Mdl GMs) (s : AppData Ms Mdl GMs) : Option Int :=
  s.render_timestamp.map fun old_ts => (cfg.clock s.ticks : Int) - (old_ts : Int)

/-- The state reached by `rerender_vdom` right before it drains the
post-render callbacks: new tree stored as baseline, new timestamp stored,
callback queue cleared, render recorded. -/
def rendered_state (cfg : AppCfg Ms Mdl GMs) (s : AppData Ms Mdl GMs)
    (mdl : Mdl) : AppData Ms Mdl GMs :=
  { s with
    ticks := s.ticks + 1
    main_el_vdom := some (Node.Element "placeholder" (cfg.view mdl) true)
    render_timestamp := some (cfg.clock s.ticks)
    after_next_render_callbacks := ([] : List (Option Int → Ms))
    trace := s.trace ++ [Event.rendered (cfg.clock s.ticks) (render_delta cfg s)] }

/-- A trace fragment containing no listener invocation: used to state
that all listener notifications for a dispatched message happen in the
listener block, before the update function runs. -/
def listener_free (t : List (Event Ms GMs)) : Prop :=
  ∀ e ∈ t, ∀ i m, e ≠ Event.listenerCalled i m

/-- A concrete app configuration (counter model, every update issues the
default `Render` directive, no sink function, no window events), used to
instantiate the theorems at closed inputs. -/
def exCfg : AppCfg Nat Nat Nat :=
  { update := fun _ mdl => (mdl + 1, {})
    sink := none
    view := fun _ => []
    window_events := false
    clock := fun t => 16 * t + 16 }

/-- A variant of `exCfg` whose update function issues `ForceRenderNow`. -/
def exCfgForce : AppCfg Nat Nat Nat :=
  { update := fun _ mdl => (mdl + 1, { should_render := ShouldRender.ForceRenderNow })
    sink := none
    view := fun _ => []
    window_events := false
    clock := fun t => 16 * t + 16 }

/-- A concrete bootstrapped app state: model present, baseline tree
present, two registered message listeners, nothing scheduled. -/
def exState : AppData Nat Nat Nat :=
  { model := some 0
    main_el_vdom := some (Node.Element "placeholder" [] true)
    msg_listeners := 2
    scheduled_render_handle := none
    after_next_render_callbacks := []
    render_timestamp := none
    mountChildren := []
    ticks := 0
    next_handle := 0
    pendingCmds := []
    trace := [] }

/-- A variant of `exState` that has already rendered once (stored
timestamp `5`, clock tick `3`). -/
def exStateTs : AppData Nat Nat Nat :=
  { exState with render_timestamp := some 5, ticks := 3 }

/-!
## Theorems
-/

/-- `setup_window_listeners` succeeds and changes nothing whenever the
model is present. -/
theorem setup_window_listeners_of_isSome (cfg : AppCfg Ms Mdl GMs)
    (s : AppData Ms Mdl GMs) (h : s.model.isSome) :
    setup_window_listeners cfg s = some s := by
  unfold setup_window_listeners
  cases hm : s.model with
  | none => rw [hm] at h; simp at h
  | some mdl => cases cfg.window_events <;> simp [hm]

/-- C9: Bootstrap in `Append` mode returns the empty placeholder root and
returns the state — in particular the mount point's pre-existing
children — unchanged. -/
theorem bootstrap_vdom_append_untouched (s : AppData Ms Mdl GMs) :
    bootstrap_vdom s MountType.Append = (Node.Element "placeholder" [] false, s) ∧
    nodeChildren (bootstrap_vdom s MountType.Append).1 = [] ∧
    (bootstrap_vdom s MountType.Append).2.mountChildren = s.mountChildren :=
  ⟨rfl, rfl, rfl⟩

/-- C10: cloning an `App` duplicates the `cfg` and `data` pointers (so a
clone operates on the very same shared state) but always clears
`init_cfg`, and therefore `run` on a clone panics when consuming the
one-shot init configuration. -/
theorem app_clone_shares_state_and_run_is_fatal (app : App) :
    (App.clone app).cfg = app.cfg ∧
    (App.clone app).data = app.data ∧
    (App.clone app).init_cfg = none ∧
    App.run_take_init_cfg (App.clone app) = none :=
  ⟨rfl, rfl, rfl, rfl⟩

/-- C2: the source's `process_cmd_and_msg_queue` coincides with the
spec's FIFO breadth-first drain at every fuel, state and initial queue:
effects are popped front-to-back, message-produced effects are appended
at the back of the same queue, commands are only handed to asynchronous
scheduling, and the loop runs until the queue is empty. -/
theorem process_cmd_and_msg_queue_is_fifo_drain (fuel : Nat)
    (cfg : AppCfg Ms Mdl GMs) (s : AppData Ms Mdl GMs)
    (queue : List (Effect Ms GMs)) :
    process_cmd_and_msg_queue fuel cfg s queue = spec_fifo_drain fuel cfg s queue := by
  induction fuel generalizing s queue with
  | zero => rfl
  | succ fuel ih =>
    cases queue with
    | nil => rfl
    | cons effect rest =>
      cases effect with
      | Msg msg =>
        simp only [process_cmd_and_msg_queue, spec_fifo_drain, dequePopFront,
          dequeAppendBack]
        cases process_queue_message fuel cfg s msg with
        | none => rfl
        | some pair => exact ih pair.1 (rest ++ pair.2)
      | GMsg gMsg =>
        simp only [process_cmd_and_msg_queue, spec_fifo_drain, dequePopFront,
          dequeAppendBack]
        cases process_queue_global_message fuel cfg s gMsg with
        | none => rfl
        | some pair => exact ih pair.1 (rest ++ pair.2)
      | Cmd c =>
        simp only [process_cmd_and_msg_queue, spec_fifo_drain, dequePopFront]
        exact ih _ rest
      | GCmd c =>
        simp only [process_cmd_and_msg_queue, spec_fifo_drain, dequePopFront]
        exact ih _ rest

/-- Reading a host node never yields a whitespace-text virtual node unless
the host node itself is whitespace text. -/
theorem is_ws_text_el_from_dom (d : DomNode) :
    is_ws_text (el_from_dom d : Node Ms) = is_ws_dom d := by
  cases d <;> rfl

mutual

/-- Whitespace-stripping commutes with reading host nodes (single node). -/
theorem strip_el_from_dom (d : DomNode) :
    strip_ws_node (el_from_dom d : Node Ms) = el_from_dom (dom_strip d) := by
  cases d with
  | element tag children =>
    simp only [el_from_dom, strip_ws_node, dom_strip, strip_els_from_dom children]
  | text str => rfl

/-- Whitespace-stripping commutes with reading host child lists. -/
theorem strip_els_from_dom (ds : List DomNode) :
    strip_ws_nodes (els_from_dom ds : List (Node Ms)) = els_from_dom (dom_strip_list ds) := by
  cases ds with
  | nil => rfl
  | cons d ds =>
    simp only [els_from_dom, strip_ws_nodes, dom_strip_list, is_ws_text_el_from_dom]
    cases h : is_ws_dom d with
    | true => simp [strip_els_from_dom ds]
    | false => simp [strip_el_from_dom d, strip_els_from_dom ds, els_from_dom]

end

mutual

/-- Binding a host node to a node read from the host and re-attaching it
reproduces the original host node. -/
theorem node_to_dom_assign_from (d : DomNode) :
    node_to_dom (assign_ws_node (el_from_dom d : Node Ms)) = some d := by
  cases d with
  | element tag children =>
    simp only [el_from_dom, assign_ws_node, node_to_dom,
      nodes_to_dom_assign_from children]
  | text str => rfl

/-- Re-attaching a bound child list read from the host reproduces the
original host children, in order. -/
theorem nodes_to_dom_assign_from (ds : List DomNode) :
    nodes_to_dom (assign_ws_nodes (els_from_dom ds : List (Node Ms))) = ds := by
  cases ds with
  | nil => rfl
  | cons d ds =>
    simp only [els_from_dom, assign_ws_nodes, nodes_to_dom,
      node_to_dom_assign_from d, nodes_to_dom_assign_from ds]

end

mutual

/-- `assign_ws_node` leaves every node of the subtree host-bound. -/
theorem node_ws_bound_assign (n : Node Ms) :
    node_ws_bound (assign_ws_node n) = true := by
  cases n with
  | Element tag children b =>
    simp only [assign_ws_node, node_ws_bound, nodes_ws_bound_assign children,
      Bool.and_self]
  | Text str b => rfl
  | Empty => rfl

/-- `assign_ws_nodes` leaves every node of the child list host-bound. -/
theorem nodes_ws_bound_assign (ns : List (Node Ms)) :
    nodes_ws_bound (assign_ws_nodes ns) = true := by
  cases ns with
  | nil => rfl
  | cons n ns =>
    simp only [assign_ws_nodes, nodes_ws_bound, node_ws_bound_assign n,
      nodes_ws_bound_assign ns, Bool.and_self]

end

/-- C8: Bootstrap in `Takeover` mode adopts the mount point's
pre-existing children — whitespace-only text nodes removed, original
document order preserved — as the baseline's children, binds a host node
to every adopted node, and after detaching all original children leaves
the mount point holding exactly the whitespace-stripped original children
in their original order. -/
theorem bootstrap_vdom_takeover_adopts_children (s : AppData Ms Mdl GMs) :
    nodeChildren (bootstrap_vdom s MountType.Takeover).1 =
      assign_ws_nodes (els_from_dom (dom_strip_list s.mountChildren)) ∧
    nodes_ws_bound (nodeChildren (bootstrap_vdom s MountType.Takeover).1) = true ∧
    (bootstrap_vdom s MountType.Takeover).2.mountChildren =
      dom_strip_list s.mountChildren ∧
    node_ws_bound (bootstrap_vdom s MountType.Takeover).1 = true := by
  refine ⟨?_, ?_, ?_, ?_⟩
  · simp only [bootstrap_vdom, strip_ws_node, nodeChildren, assign_ws_node,
      strip_els_from_dom]
  · simp only [bootstrap_vdom, strip_ws_node, nodeChildren, assign_ws_node]
    exact nodes_ws_bound_assign _
  · simp only [bootstrap_vdom, strip_ws_node, nodeChildren, assign_ws_node,
      strip_els_from_dom, nodes_to_dom_assign_from]
  · simp only [bootstrap_vdom, strip_ws_node, assign_ws_node, node_ws_bound,
      Bool.true_and]
    exact nodes_ws_bound_assign _

theorem dispatchedMsgs_append (t1 t2 : List (Event Ms GMs)) :
    dispatchedMsgs (t1 ++ t2) = dispatchedMsgs t1 ++ dispatchedMsgs t2 := by
  simp [dispatchedMsgs, List.filterMap_append]

theorem dispatchedMsgs_map_listener (l : List Nat) (m : Ms) :
    dispatchedMsgs ((l.map fun i => Event.listenerCalled i m) :
      List (Event Ms GMs)) = [] := by
  induction l with
  | nil => rfl
  | cons a l ih => simp [dispatchedMsgs, List.filterMap_cons]

/-- `setup_window_listeners` can only return its input state. -/
theorem setup_window_listeners_eq (cfg : AppCfg Ms Mdl GMs)
    (s t : AppData Ms Mdl GMs) (h : setup_window_listeners cfg s = some t) :
    t = s := by
  unfold setup_window_listeners at h
  cases hw : cfg.window_events with
  | false => rw [hw] at h; simp at h; exact h.symm
  | true =>
    rw [hw] at h
    cases hm : s.model with
    | none => rw [hm] at h; simp at h
    | some mdl => rw [hm] at h; simp at h; exact h.symm

theorem dispatchedMsgs_schedule_render (s : AppData Ms Mdl GMs) :
    dispatchedMsgs (schedule_render s).trace = dispatchedMsgs s.trace := by
  unfold schedule_render
  cases s.scheduled_render_handle <;>
    simp [dispatchedMsgs_append, dispatchedMsgs]

theorem dispatchedMsgs_cancel_scheduled_render (s : AppData Ms Mdl GMs) :
    dispatchedMsgs (cancel_scheduled_render s).trace = dispatchedMsgs s.trace := by
  unfold cancel_scheduled_render
  cases s.scheduled_render_handle <;>
    simp [dispatchedMsgs_append, dispatchedMsgs]

/-- The queue-internal machinery never performs a fresh `App::update`
dispatch: the drain, message/global-message processing and rerendering
(post-render callbacks included) leave the dispatch trace unchanged.
Commands only reach `update` through their host-side completion. -/
theorem internal_no_dispatch (fuel : Nat) (cfg : AppCfg Ms Mdl GMs) :
    (∀ s q s2, process_cmd_and_msg_queue fuel cfg s q = some s2 →
      dispatchedMsgs s2.trace = dispatchedMsgs s.trace) ∧
    (∀ s m s2 effs, process_queue_message fuel cfg s m = some (s2, effs) →
      dispatchedMsgs s2.trace = dispatchedMsgs s.trace) ∧
    (∀ s g s2 effs, process_queue_global_message fuel cfg s g = some (s2, effs) →
      dispatchedMsgs s2.trace = dispatchedMsgs s.trace) ∧
    (∀ s s2, rerender_vdom fuel cfg s = some s2 →
      dispatchedMsgs s2.trace = dispatchedMsgs s.trace) := by
  induction fuel with
  | zero =>
    refine ⟨fun s q s2 h => ?_, fun s m s2 effs h => ?_,
      fun s g s2 effs h => ?_, fun s s2 h => ?_⟩ <;>
      exact Option.noConfusion h
  | succ fuel ih =>
    obtain ⟨ihQ, ihM, ihG, ihR⟩ := ih
    have hMsg : ∀ s m s2 effs,
        process_queue_message (fuel + 1) cfg s m = some (s2, effs) →
        dispatchedMsgs s2.trace = dispatchedMsgs s.trace := by
      intro s m s2 effs h
      unfold process_queue_message at h
      cases hm : s.model with
      | none => rw [hm] at h; cases h
      | some mdl =>
        rw [hm] at h
        simp only at h
        set s2' : AppData Ms Mdl GMs := { s with
          model := some (cfg.update m mdl).1
          trace := (s.trace ++
              (List.range s.msg_listeners).map fun i => Event.listenerCalled i m) ++
            [Event.updateFnCalled m]
          after_next_render_callbacks :=
            s.after_next_render_callbacks ++ (cfg.update m mdl).2.after_next_render }
          with hs2'
        have htr : dispatchedMsgs s2'.trace = dispatchedMsgs s.trace := by
          simp [hs2', dispatchedMsgs_append, dispatchedMsgs_map_listener,
            dispatchedMsgs]
        cases hw : setup_window_listeners cfg s2' with
        | none => rw [hw] at h; cases h
        | some s3 =>
          have hs3 : s3 = s2' := setup_window_listeners_eq cfg s2' s3 hw
          rw [hw] at h
          simp only at h
          cases hd : (cfg.update m mdl).2.should_render with
          | Render =>
            rw [hd] at h
            simp only [Option.some.injEq, Prod.mk.injEq] at h
            rw [← h.1, dispatchedMsgs_schedule_render, hs3, htr]
          | ForceRenderNow =>
            rw [hd] at h
            simp only at h
            cases hr : rerender_vdom fuel cfg (cancel_scheduled_render s3) with
            | none => rw [hr] at h; simp at h
            | some s4 =>
              rw [hr] at h
              simp only [Option.some.injEq, Prod.mk.injEq] at h
              rw [← h.1]
              rw [ihR _ _ hr, dispatchedMsgs_cancel_scheduled_render, hs3, htr]
          | Skip =>
            rw [hd] at h
            simp only [Option.some.injEq, Prod.mk.injEq] at h
            rw [← h.1, hs3, htr]
    have hGMsg : ∀ s g s2 effs,
        process_queue_global_message (fuel + 1) cfg s g = some (s2, effs) →
        dispatchedMsgs s2.trace = dispatchedMsgs s.trace := by
      intro s g s2 effs h
      unfold process_queue_global_message at h
      simp only at h
      have hstep : ∀ s1 orders,
          (match cfg.sink with
            | none => some (s, OrdersContainer.new Ms GMs)
            | some sinkFn =>
              match s.model with
              | none => none
              | some mdl =>
                let res := sinkFn g mdl
                some ({ s with
                  model := some res.1
                  trace := s.trace ++ [Event.sinkFnCalled g]
                  after_next_render_callbacks :=
                    s.after_next_render_callbacks ++ res.2.after_next_render },
                  res.2)) = some (s1, orders) →
          dispatchedMsgs s1.trace = dispatchedMsgs s.trace := by
        intro s1 orders hst
        cases hsink : cfg.sink with
        | none =>
          rw [hsink] at hst
          simp only [Option.some.injEq, Prod.mk.injEq] at hst
          rw [← hst.1]
        | some sinkFn =>
          rw [hsink] at hst
          cases hm : s.model with
          | none => rw [hm] at hst; cases hst
          | some mdl =>
            rw [hm] at hst
            simp only [Option.some.injEq, Prod.mk.injEq] at hst
            rw [← hst.1]
            simp [dispatchedMsgs_append, dispatchedMsgs]
      cases hst : (match cfg.sink with
        | none => some (s, OrdersContainer.new Ms GMs)
        | some sinkFn =>
          match s.model with
          | none => none
          | some mdl =>
            let res := sinkFn g mdl
            some ({ s with
              model := some res.1
              trace := s.trace ++ [Event.sinkFnCalled g]
              after_next_render_callbacks :=
                s.after_next_render_callbacks ++ res.2.after_next_render },
              res.2)) with
      | none => rw [hst] at h; cases h
      | some pair =>
        obtain ⟨s1, orders⟩ := pair
        rw [hst] at h
        simp only at h
        have h1 : dispatchedMsgs s1.trace = dispatchedMsgs s.trace :=
          hstep s1 orders (by rw [hst])
        cases hw : setup_window_listeners cfg s1 with
        | none => rw [hw] at h; simp at h
        | some s3 =>
          have hs3 : s3 = s1 := setup_window_listeners_eq cfg s1 s3 hw
          rw [hw] at h
          simp only at h
          cases hd : orders.should_render with
          | Render =>
            rw [hd] at h
            simp only [Option.some.injEq, Prod.mk.injEq] at h
            rw [← h.1, dispatchedMsgs_schedule_render, hs3, h1]
          | ForceRenderNow =>
            rw [hd] at h
            simp only at h
            cases hr : rerender_vdom fuel cfg (cancel_scheduled_render s3) with
            | none => rw [hr] at h; simp at h
            | some s4 =>
              rw [hr] at h
              simp only [Option.some.injEq, Prod.mk.injEq] at h
              rw [← h.1]
              rw [ihR _ _ hr, dispatchedMsgs_cancel_scheduled_render, hs3, h1]
          | Skip =>
            rw [hd] at h
            simp only [Option.some.injEq, Prod.mk.injEq] at h
            rw [← h.1, hs3, h1]
    have hRe : ∀ s s2, rerender_vdom (fuel + 1) cfg s = some s2 →
        dispatchedMsgs s2.trace = dispatchedMsgs s.trace := by
      intro s s2 h
      unfold rerender_vdom at h
      cases hm : s.model with
      | none => rw [hm] at h; cases h
      | some mdl =>
        rw [hm] at h
        cases hv : s.main_el_vdom with
        | none => rw [hv] at h; cases h
        | some old =>
          rw [hv] at h
          simp only at h
          have := ihQ _ _ _ h
          rw [this]
          simp [dispatchedMsgs_append, dispatchedMsgs]
    refine ⟨?_, hMsg, hGMsg, hRe⟩
    intro s q s2 h
    unfold process_cmd_and_msg_queue at h
    cases q with
    | nil => simp only [dequePopFront] at h; cases h; rfl
    | cons effect rest =>
      simp only [dequePopFront] at h
      cases effect with
      | Msg m =>
        simp only at h
        cases hp : process_queue_message fuel cfg s m with
        | none => rw [hp] at h; simp at h
        | some pair =>
          obtain ⟨s3, produced⟩ := pair
          rw [hp] at h
          simp only at h
          rw [ihQ _ _ _ h, ihM _ _ _ _ hp]
      | GMsg g =>
        simp only at h
        cases hp : process_queue_global_message fuel cfg s g with
        | none => rw [hp] at h; simp at h
        | some pair =>
          obtain ⟨s3, produced⟩ := pair
          rw [hp] at h
          simp only at h
          rw [ihQ _ _ _ h, ihG _ _ _ _ hp]
      | Cmd c =>
        simp only at h
        have := ihQ _ _ _ h
        rw [this]
        simp [process_queue_cmd, dispatchedMsgs_append, dispatchedMsgs]
      | GCmd c =>
        simp only at h
        have := ihQ _ _ _ h
        rw [this]
        simp [process_queue_global_cmd, dispatchedMsgs_append, dispatchedMsgs]

theorem countRaf_append (t1 t2 : List (Event Ms GMs)) :
    countRaf (t1 ++ t2) = countRaf t1 + countRaf t2 := by
  simp [countRaf, List.countP_append]

theorem countRendered_append (t1 t2 : List (Event Ms GMs)) :
    countRendered (t1 ++ t2) = countRendered t1 + countRendered t2 := by
  simp [countRendered, List.countP_append]

theorem countRaf_map_listener (l : List Nat) (m : Ms) :
    countRaf ((l.map fun i => Event.listenerCalled i m) :
      List (Event Ms GMs)) = 0 := by
  induction l with
  | nil => rfl
  | cons a l ih => simp [countRaf, List.countP_cons] at ih ⊢

theorem countRendered_map_listener (l : List Nat) (m : Ms) :
    countRendered ((l.map fun i => Event.listenerCalled i m) :
      List (Event Ms GMs)) = 0 := by
  induction l with
  | nil => rfl
  | cons a l ih => simp [countRendered, List.countP_cons] at ih ⊢

/-- An empty queue drains immediately (given any fuel to enter the
loop). -/
theorem process_cmd_and_msg_queue_nil (fuel : Nat) (cfg : AppCfg Ms Mdl GMs)
    (s : AppData Ms Mdl GMs) :
    process_cmd_and_msg_queue (fuel + 1) cfg s [] = some s := rfl

/-- One unfolding of `process_queue_message` when the model is present:
listeners and update run first (reaching `post_update_state`), then the
render directive decides what happens. -/
theorem process_queue_message_succ_eq (fuel : Nat) (cfg : AppCfg Ms Mdl GMs)
    (s : AppData Ms Mdl GMs) (msg : Ms) (mdl : Mdl) (hm : s.model = some mdl) :
    process_queue_message (fuel + 1) cfg s msg =
      (match (cfg.update msg mdl).2.should_render with
       | ShouldRender.Render =>
         some (schedule_render (post_update_state cfg s msg mdl),
           (cfg.update msg mdl).2.effects)
       | ShouldRender.ForceRenderNow =>
         match rerender_vdom fuel cfg
             (cancel_scheduled_render (post_update_state cfg s msg mdl)) with
         | none => none
         | some s4 => some (s4, (cfg.update msg mdl).2.effects)
       | ShouldRender.Skip =>
         some (post_update_state cfg s msg mdl, (cfg.update msg mdl).2.effects)) := by
  have hsw : setup_window_listeners cfg (post_update_state cfg s msg mdl) =
      some (post_update_state cfg s msg mdl) :=
    setup_window_listeners_of_isSome _ _ rfl
  unfold process_queue_message
  rw [hm]
  simp only
  simp only [post_update_state] at hsw
  rw [hsw]
  simp only [post_update_state]

/-- One unfolding of `rerender_vdom` when the model and the baseline tree
are present: the new timestamp is stored and the render recorded
(`rendered_state`) before the post-render callbacks are drained through
the effect queue, each receiving the timestamp delta. -/
theorem rerender_vdom_succ_eq (fuel : Nat) (cfg : AppCfg Ms Mdl GMs)
    (s : AppData Ms Mdl GMs) (mdl : Mdl) (old : Node Ms)
    (hm : s.model = some mdl) (hv : s.main_el_vdom = some old) :
    rerender_vdom (fuel + 1) cfg s =
      process_cmd_and_msg_queue fuel cfg (rendered_state cfg s mdl)
        (s.after_next_render_callbacks.map fun callback =>
          Effect.Msg (callback (render_delta cfg s))) := by
  unfold rerender_vdom
  rw [hm]
  simp only
  rw [hv]
  simp only [rendered_state, render_delta]
  rw [hm]

/-- C4: completing a command whose `Result` carries a message on both
sides causes exactly one dispatch — a fresh `App::update` call — of the
message of whichever side occurred (`unwrap_or_else` collapses success
and failure to their message, so a failure is not fatal), and the
queue-internal processing it triggers performs no further dispatch:
whenever the completion's drain finishes, the dispatch trace has grown by
exactly that one message. -/
theorem complete_cmd_dispatches_exactly_once (fuel : Nat)
    (cfg : AppCfg Ms Mdl GMs) (s s2 : AppData Ms Mdl GMs) (c : Except Ms Ms)
    (h : complete_cmd fuel cfg s c = some s2) :
    dispatchedMsgs s2.trace = dispatchedMsgs s.trace ++ [collapseResult c] := by
  unfold complete_cmd update at h
  have hq := (internal_no_dispatch fuel cfg).1 _ _ _ h
  rw [hq, dispatchedMsgs_append]
  simp [dispatchedMsgs]

/-- Witness for C4 at a concrete failing command: completion succeeds and
dispatches exactly the error-side message `7`. -/
theorem complete_cmd_dispatches_exactly_once_witness :
    ∃ s2, complete_cmd 5 exCfg exState (Except.error 7) = some s2 ∧
      dispatchedMsgs s2.trace =
        dispatchedMsgs exState.trace ++ [collapseResult (Except.error 7)] := by
  refine ⟨_, rfl, ?_⟩
  exact complete_cmd_dispatches_exactly_once 5 exCfg exState _ (Except.error 7) rfl

theorem schedule_render_handle_isSome (x : AppData Ms Mdl GMs) :
    (schedule_render x).scheduled_render_handle.isSome := by
  unfold schedule_render
  cases hx : x.scheduled_render_handle with
  | none => simp
  | some h => simp [hx]

theorem countRendered_schedule_render (x : AppData Ms Mdl GMs) :
    countRendered (schedule_render x).trace = countRendered x.trace := by
  unfold schedule_render
  cases hx : x.scheduled_render_handle <;>
    simp [hx, countRendered_append, countRendered]

theorem countRaf_cancel_scheduled_render (x : AppData Ms Mdl GMs) :
    countRaf (cancel_scheduled_render x).trace = countRaf x.trace := by
  unfold cancel_scheduled_render
  cases hx : x.scheduled_render_handle <;>
    simp [hx, countRaf_append, countRaf]

theorem countRendered_cancel_scheduled_render (x : AppData Ms Mdl GMs) :
    countRendered (cancel_scheduled_render x).trace = countRendered x.trace := by
  unfold cancel_scheduled_render
  cases hx : x.scheduled_render_handle <;>
    simp [hx, countRendered_append, countRendered]

theorem cancel_scheduled_render_handle_none (x : AppData Ms Mdl GMs) :
    (cancel_scheduled_render x).scheduled_render_handle = none := by
  unfold cancel_scheduled_render
  cases hx : x.scheduled_render_handle <;> simp [hx]

theorem countRendered_post_update (cfg : AppCfg Ms Mdl GMs)
    (s : AppData Ms Mdl GMs) (msg : Ms) (mdl : Mdl) :
    countRendered (post_update_state cfg s msg mdl).trace = countRendered s.trace := by
  simp [post_update_state, countRendered_append, countRendered_map_listener,
    countRendered]

theorem countRaf_post_update (cfg : AppCfg Ms Mdl GMs)
    (s : AppData Ms Mdl GMs) (msg : Ms) (mdl : Mdl) :
    countRaf (post_update_state cfg s msg mdl).trace = countRaf s.trace := by
  simp [post_update_state, countRaf_append, countRaf_map_listener, countRaf]

/-- C3: after the update function returns, the accumulated render
directive is applied exactly as specified — `Render` schedules a
coalesced render (a handle is stored, nothing renders synchronously);
`ForceRenderNow` cancels any pending coalesced render (the handle is
gone afterwards) and renders synchronously exactly once before
`process_queue_message` returns; `Skip` neither renders nor schedules
nor touches the stored handle.  The effects accumulated by the update are
returned to the caller unprocessed. -/
theorem process_queue_message_applies_render_directive (fuel : Nat)
    (cfg : AppCfg Ms Mdl GMs) (s : AppData Ms Mdl GMs) (msg : Ms) (mdl : Mdl)
    (hm : s.model = some mdl)
    (hcb : s.after_next_render_callbacks = [])
    (hcb2 : (cfg.update msg mdl).2.after_next_render = [])
    (hv : s.main_el_vdom.isSome) (hfuel : 3 ≤ fuel) :
    ∃ s2, process_queue_message fuel cfg s msg =
        some (s2, (cfg.update msg mdl).2.effects) ∧
      ((cfg.update msg mdl).2.should_render = ShouldRender.Render →
        s2.scheduled_render_handle.isSome ∧
        countRendered s2.trace = countRendered s.trace) ∧
      ((cfg.update msg mdl).2.should_render = ShouldRender.ForceRenderNow →
        s2.scheduled_render_handle = none ∧
        countRendered s2.trace = countRendered s.trace + 1) ∧
      ((cfg.update msg mdl).2.should_render = ShouldRender.Skip →
        s2.scheduled_render_handle = s.scheduled_render_handle ∧
        countRendered s2.trace = countRendered s.trace ∧
        countRaf s2.trace = countRaf s.trace) := by
  obtain ⟨k, rfl⟩ : ∃ k, fuel = k + 3 := by
    refine ⟨fuel - 3, ?_⟩
    omega
  rw [show k + 3 = (k + 2) + 1 from rfl,
    process_queue_message_succ_eq (k + 2) cfg s msg mdl hm]
  cases hd : (cfg.update msg mdl).2.should_render with
  | Render =>
    refine ⟨schedule_render (post_update_state cfg s msg mdl), rfl, ?_, ?_, ?_⟩
    · intro _
      exact ⟨schedule_render_handle_isSome _,
        (countRendered_schedule_render _).trans (countRendered_post_update _ _ _ _)⟩
    · intro h
      exact ShouldRender.noConfusion h
    · intro h
      exact ShouldRender.noConfusion h
  | ForceRenderNow =>
    have hmP : (cancel_scheduled_render (post_update_state cfg s msg mdl)).model =
        some (cfg.update msg mdl).1 := by
      unfold cancel_scheduled_render post_update_state
      cases hx : s.scheduled_render_handle <;> simp [hx]
    obtain ⟨oldTree, hold⟩ : ∃ t,
        (cancel_scheduled_render (post_update_state cfg s msg mdl)).main_el_vdom =
          some t := by
      unfold cancel_scheduled_render post_update_state
      cases hx : s.scheduled_render_handle <;>
        simp [hx] <;> exact Option.isSome_iff_exists.mp hv
    have hcbP :
        (cancel_scheduled_render (post_update_state cfg s msg mdl)).after_next_render_callbacks = [] := by
      unfold cancel_scheduled_render post_update_state
      cases hx : s.scheduled_render_handle <;> simp [hx, hcb, hcb2]
    rw [show k + 2 = (k + 1) + 1 from rfl,
      rerender_vdom_succ_eq (k + 1) cfg _ _ _ hmP hold]
    rw [hcbP]
    simp only [List.map_nil]
    rw [show k + 1 = k + 1 from rfl, process_cmd_and_msg_queue_nil k]
    refine ⟨_, rfl, ?_, ?_, ?_⟩
    · intro h
      exact ShouldRender.noConfusion h
    · intro _
      constructor
      · simp [rendered_state, cancel_scheduled_render_handle_none]
      · simp only [rendered_state]
        rw [countRendered_append,
          countRendered_cancel_scheduled_render, countRendered_post_update]
        simp [countRendered]
    · intro h
      exact ShouldRender.noConfusion h
  | Skip =>
    refine ⟨post_update_state cfg s msg mdl, rfl, ?_, ?_, ?_⟩
    · intro h
      exact ShouldRender.noConfusion h
    · intro h
      exact ShouldRender.noConfusion h
    · intro _
      exact ⟨rfl, countRendered_post_update _ _ _ _, countRaf_post_update _ _ _ _⟩

/-- Witness for C3 at a concrete `ForceRenderNow` update. -/
theorem process_queue_message_applies_render_directive_witness :
    ∃ s2, process_queue_message 3 exCfgForce exState 1 =
        some (s2, (exCfgForce.update 1 0).2.effects) ∧
      ((exCfgForce.update 1 0).2.should_render = ShouldRender.Render →
        s2.scheduled_render_handle.isSome ∧
        countRendered s2.trace = countRendered exState.trace) ∧
      ((exCfgForce.update 1 0).2.should_render = ShouldRender.ForceRenderNow →
        s2.scheduled_render_handle = none ∧
        countRendered s2.trace = countRendered exState.trace + 1) ∧
      ((exCfgForce.update 1 0).2.should_render = ShouldRender.Skip →
        s2.scheduled_render_handle = exState.scheduled_render_handle ∧
        countRendered s2.trace = countRendered exState.trace ∧
        countRaf s2.trace = countRaf exState.trace) :=
  process_queue_message_applies_render_directive 3 exCfgForce exState 1 0
    rfl rfl rfl rfl (by omega)

theorem listener_free_append (t1 t2 : List (Event Ms GMs))
    (h1 : listener_free t1) (h2 : listener_free t2) :
    listener_free (t1 ++ t2) := by
  intro e he i m
  rcases List.mem_append.mp he with h | h
  · exact h1 e h i m
  · exact h2 e h i m

theorem schedule_render_trace_clean (x : AppData Ms Mdl GMs) :
    ∃ t, (schedule_render x).trace = x.trace ++ t ∧ listener_free t := by
  unfold schedule_render
  cases hx : x.scheduled_render_handle with
  | some h0 => exact ⟨[], by simp, by intro e he; simp at he⟩
  | none =>
    refine ⟨[Event.renderRequested x.next_handle], by simp, ?_⟩
    intro e he i m
    simp at he
    simp [he]

theorem cancel_scheduled_render_trace_clean (x : AppData Ms Mdl GMs) :
    ∃ t, (cancel_scheduled_render x).trace = x.trace ++ t ∧ listener_free t := by
  unfold cancel_scheduled_render
  cases hx : x.scheduled_render_handle with
  | none => exact ⟨[], by simp, by intro e he; simp at he⟩
  | some h0 =>
    refine ⟨[Event.renderCancelled h0], by simp, ?_⟩
    intro e he i m
    simp at he
    simp [he]

theorem listener_block_nodup (n : Nat) (msg : Ms) :
    (((List.range n).map fun i =>
      (Event.listenerCalled i msg : Event Ms GMs))).Nodup := by
  refine List.Nodup.map ?_ (List.nodup_range n)
  intro a b hab
  injection hab with h1 h2

theorem listener_block_mem (n : Nat) (msg : Ms) (i : Nat) :
    ((Event.listenerCalled i msg : Event Ms GMs) ∈
      (List.range n).map fun j => Event.listenerCalled j msg) ↔ i < n := by
  constructor
  · intro h
    obtain ⟨j, hj, hje⟩ := List.mem_map.mp h
    injection hje with h1 h2
    exact h1 ▸ List.mem_range.mp hj
  · intro h
    exact List.mem_map.mpr ⟨i, List.mem_range.mpr h, rfl⟩

/-- C5: for every dispatched local message, every registered listener is
invoked with it exactly once (the listener block lists each registered
listener once, in registration order `0, 1, …`), and all listener
invocations happen before the update function runs; no listener
invocation occurs anywhere later in the processing of this dispatch. -/
theorem process_queue_message_listeners_in_order (fuel : Nat)
    (cfg : AppCfg Ms Mdl GMs) (s : AppData Ms Mdl GMs) (msg : Ms) (mdl : Mdl)
    (hm : s.model = some mdl)
    (hcb : s.after_next_render_callbacks = [])
    (hcb2 : (cfg.update msg mdl).2.after_next_render = [])
    (hv : s.main_el_vdom.isSome) (hfuel : 3 ≤ fuel) :
    ∃ s2 tail,
      process_queue_message fuel cfg s msg =
        some (s2, (cfg.update msg mdl).2.effects) ∧
      s2.trace = s.trace ++
        ((List.range s.msg_listeners).map fun i => Event.listenerCalled i msg) ++
        Event.updateFnCalled msg :: tail ∧
      (((List.range s.msg_listeners).map fun i =>
        (Event.listenerCalled i msg : Event Ms GMs))).Nodup ∧
      (∀ i : Nat, ((Event.listenerCalled i msg : Event Ms GMs) ∈
        (List.range s.msg_listeners).map fun j => Event.listenerCalled j msg) ↔
        i < s.msg_listeners) ∧
      listener_free tail := by
  obtain ⟨k, rfl⟩ : ∃ k, fuel = k + 3 := ⟨fuel - 3, by omega⟩
  rw [show k + 3 = (k + 2) + 1 from rfl,
    process_queue_message_succ_eq (k + 2) cfg s msg mdl hm]
  cases hd : (cfg.update msg mdl).2.should_render with
  | Render =>
    obtain ⟨t1, ht1, hc1⟩ :=
      schedule_render_trace_clean (post_update_state cfg s msg mdl)
    refine ⟨_, t1, rfl, ?_, listener_block_nodup _ _,
      fun i => listener_block_mem _ _ _, hc1⟩
    rw [ht1]
    simp [post_update_state, List.append_assoc]
  | ForceRenderNow =>
    have hmP : (cancel_scheduled_render (post_update_state cfg s msg mdl)).model =
        some (cfg.update msg mdl).1 := by
      unfold cancel_scheduled_render post_update_state
      cases hx : s.scheduled_render_handle <;> simp [hx]
    obtain ⟨oldTree, hold⟩ : ∃ t,
        (cancel_scheduled_render (post_update_state cfg s msg mdl)).main_el_vdom =
          some t := by
      unfold cancel_scheduled_render post_update_state
      cases hx : s.scheduled_render_handle <;>
        simp [hx] <;> exact Option.isSome_iff_exists.mp hv
    have hcbP :
        (cancel_scheduled_render
          (post_update_state cfg s msg mdl)).after_next_render_callbacks = [] := by
      unfold cancel_scheduled_render post_update_state
      cases hx : s.scheduled_render_handle <;> simp [hx, hcb, hcb2]
    rw [show k + 2 = (k + 1) + 1 from rfl,
      rerender_vdom_succ_eq (k + 1) cfg _ _ _ hmP hold]
    rw [hcbP]
    simp only [List.map_nil]
    rw [process_cmd_and_msg_queue_nil k]
    obtain ⟨t2, ht2, hc2⟩ :=
      cancel_scheduled_render_trace_clean (post_update_state cfg s msg mdl)
    refine ⟨_,
      t2 ++ [Event.rendered
        (cfg.clock (cancel_scheduled_render (post_update_state cfg s msg mdl)).ticks)
        (render_delta cfg (cancel_scheduled_render (post_update_state cfg s msg mdl)))],
      rfl, ?_, listener_block_nodup _ _, fun i => listener_block_mem _ _ _, ?_⟩
    · show (cancel_scheduled_render (post_update_state cfg s msg mdl)).trace ++ _ = _
      rw [ht2]
      simp [post_update_state, List.append_assoc]
    · refine listener_free_append _ _ hc2 ?_
      intro e he i m
      simp at he
      simp [he]
  | Skip =>
    refine ⟨_, [], rfl, ?_, listener_block_nodup _ _,
      fun i => listener_block_mem _ _ _, by intro e he; simp at he⟩
    simp [post_update_state, List.append_assoc]

/-- Witness for C5 at a concrete dispatch with two registered
listeners. -/
theorem process_queue_message_listeners_in_order_witness :
    ∃ s2 tail,
      process_queue_message 3 exCfg exState 4 =
        some (s2, (exCfg.update 4 0).2.effects) ∧
      s2.trace = exState.trace ++
        ((List.range exState.msg_listeners).map fun i => Event.listenerCalled i 4) ++
        Event.updateFnCalled 4 :: tail ∧
      (((List.range exState.msg_listeners).map fun i =>
        (Event.listenerCalled i 4 : Event Nat Nat))).Nodup ∧
      (∀ i : Nat, ((Event.listenerCalled i 4 : Event Nat Nat) ∈
        (List.range exState.msg_listeners).map fun j => Event.listenerCalled j 4) ↔
        i < exState.msg_listeners) ∧
      listener_free tail :=
  process_queue_message_listeners_in_order 3 exCfg exState 4 0
    rfl rfl rfl rfl (by omega)

/-- C7: on the first render (no stored timestamp) the delta handed to
post-render callbacks is absent; on every later render it is the new
host-clock timestamp minus the stored one, non-negative whenever the
host clock is monotone; and the new timestamp is stored (in
`rendered_state`) before the post-render callbacks are drained through
the queue. -/
theorem rerender_vdom_timestamp_delta (fuel : Nat) (cfg : AppCfg Ms Mdl GMs)
    (s : AppData Ms Mdl GMs) (mdl : Mdl) (old : Node Ms)
    (hm : s.model = some mdl) (hv : s.main_el_vdom = some old) :
    rerender_vdom (fuel + 1) cfg s =
      process_cmd_and_msg_queue fuel cfg (rendered_state cfg s mdl)
        (s.after_next_render_callbacks.map fun callback =>
          Effect.Msg (callback (render_delta cfg s))) ∧
    (rendered_state cfg s mdl).render_timestamp = some (cfg.clock s.ticks) ∧
    (rendered_state cfg s mdl).trace =
      s.trace ++ [Event.rendered (cfg.clock s.ticks) (render_delta cfg s)] ∧
    (s.render_timestamp = none → render_delta cfg s = none) ∧
    (∀ t0, s.render_timestamp = some t0 →
      render_delta cfg s = some ((cfg.clock s.ticks : Int) - (t0 : Int)) ∧
      (t0 ≤ cfg.clock s.ticks → ∀ d, render_delta cfg s = some d → 0 ≤ d)) := by
  refine ⟨rerender_vdom_succ_eq fuel cfg s mdl old hm hv, rfl, rfl, ?_, ?_⟩
  · intro h
    simp [render_delta, h]
  · intro t0 h
    refine ⟨by simp [render_delta, h], ?_⟩
    intro hle d hd
    simp [render_delta, h] at hd
    omega

/-- Witness for C7 at a concrete second render: stored timestamp `5`,
new clock reading `16 * 3 + 16 = 64`. -/
theorem rerender_vdom_timestamp_delta_witness :
    rerender_vdom (2 + 1) exCfg exStateTs =
      process_cmd_and_msg_queue 2 exCfg (rendered_state exCfg exStateTs 0)
        (exStateTs.after_next_render_callbacks.map fun callback =>
          Effect.Msg (callback (render_delta exCfg exStateTs))) ∧
    (rendered_state exCfg exStateTs 0).render_timestamp =
      some (exCfg.clock exStateTs.ticks) ∧
    (rendered_state exCfg exStateTs 0).trace =
      exStateTs.trace ++ [Event.rendered (exCfg.clock exStateTs.ticks)
        (render_delta exCfg exStateTs)] ∧
    (exStateTs.render_timestamp = none → render_delta exCfg exStateTs = none) ∧
    (∀ t0, exStateTs.render_timestamp = some t0 →
      render_delta exCfg exStateTs =
        some ((exCfg.clock exStateTs.ticks : Int) - (t0 : Int)) ∧
      (t0 ≤ exCfg.clock exStateTs.ticks →
        ∀ d, render_delta exCfg exStateTs = some d → 0 ≤ d)) :=
  rerender_vdom_timestamp_delta 2 exCfg exStateTs 0
    (Node.Element "placeholder" [] true) rfl rfl

/-- With no sink function, `process_queue_global_message` leaves the
fresh orders object at its defaults, so the default `Render` directive is
applied: a coalesced render is scheduled and no effects are returned. -/
theorem process_queue_global_message_no_sink (fuel : Nat)
    (cfg : AppCfg Ms Mdl GMs) (s : AppData Ms Mdl GMs) (g : GMs)
    (hsink : cfg.sink = none) (hm : s.model.isSome) :
    process_queue_global_message (fuel + 1) cfg s g =
      some (schedule_render s, []) := by
  unfold process_queue_global_message
  rw [hsink]
  simp only
  rw [setup_window_listeners_of_isSome cfg s hm]
  rfl

theorem schedule_render_model (x : AppData Ms Mdl GMs) :
    (schedule_render x).model = x.model := by
  unfold schedule_render
  cases hx : x.scheduled_render_handle <;> simp [hx]

theorem schedule_render_main (x : AppData Ms Mdl GMs) :
    (schedule_render x).main_el_vdom = x.main_el_vdom := by
  unfold schedule_render
  cases hx : x.scheduled_render_handle <;> simp [hx]

theorem schedule_render_callbacks (x : AppData Ms Mdl GMs) :
    (schedule_render x).after_next_render_callbacks =
      x.after_next_render_callbacks := by
  unfold schedule_render
  cases hx : x.scheduled_render_handle <;> simp [hx]

/-- C6 counterexample: `sink(0)` on a concrete app with no sink function
configured leaves the model untouched and the queue drains without
error, but — contrary to the claim that no render is triggered at all —
it stores a scheduled-render handle and records one animation-frame
request, because the fresh orders object's default directive `Render` is
applied even when the sink is absent. -/
theorem sink_without_sink_fn_schedules_render_counterexample :
    ∃ s2, sink 5 exCfg exState 0 = some s2 ∧
      s2.model = exState.model ∧
      countRendered s2.trace = 0 ∧
      s2.scheduled_render_handle = some 0 ∧
      countRaf s2.trace = 1 ∧
      ¬s2.scheduled_render_handle = none := by
  refine ⟨_, rfl, rfl, rfl, rfl, rfl, ?_⟩
  intro hcontra
  exact Option.noConfusion hcontra

/-- C6 amended: calling `sink` with a global message when no sink
function is configured produces no model mutation and no synchronous
render, and the effect queue drains to empty without error — but, the
default `Render` directive being applied regardless, a coalesced render
is scheduled (a pending handle exists afterwards). -/
theorem sink_without_sink_fn_amended (fuel : Nat) (cfg : AppCfg Ms Mdl GMs)
    (s : AppData Ms Mdl GMs) (g : GMs)
    (hsink : cfg.sink = none) (hm : s.model.isSome) (hfuel : 2 ≤ fuel) :
    ∃ s2, sink fuel cfg s g = some s2 ∧
      s2.model = s.model ∧
      countRendered s2.trace = countRendered s.trace ∧
      s2.scheduled_render_handle.isSome := by
  obtain ⟨k, rfl⟩ : ∃ k, fuel = k + 2 := ⟨fuel - 2, by omega⟩
  have hm' : ({ s with trace := s.trace ++ [Event.sinkCalled g] } :
      AppData Ms Mdl GMs).model.isSome := hm
  have hstep : sink (k + 2) cfg s g =
      some (schedule_render
        { s with trace := s.trace ++ [Event.sinkCalled g] }) := by
    unfold sink
    rw [show k + 2 = (k + 1) + 1 from rfl]
    unfold process_cmd_and_msg_queue
    simp only [dequePopFront]
    rw [process_queue_global_message_no_sink k cfg _ g hsink hm']
    exact process_cmd_and_msg_queue_nil k cfg _
  refine ⟨_, hstep, ?_, ?_, schedule_render_handle_isSome _⟩
  · rw [schedule_render_model]
  · rw [countRendered_schedule_render]
    simp [countRendered_append, countRendered]

/-- Witness for the amended C6 at the concrete no-sink app. -/
theorem sink_without_sink_fn_amended_witness :
    ∃ s2, sink 2 exCfg exState 0 = some s2 ∧
      s2.model = exState.model ∧
      countRendered s2.trace = countRendered exState.trace ∧
      s2.scheduled_render_handle.isSome :=
  sink_without_sink_fn_amended 2 exCfg exState 0 rfl rfl (by omega)

theorem schedule_render_handle_eq (x : AppData Ms Mdl GMs) :
    (schedule_render x).scheduled_render_handle =
      (match x.scheduled_render_handle with
       | some h => some h
       | none => some x.next_handle) := by
  unfold schedule_render
  cases hx : x.scheduled_render_handle <;> simp [hx]

theorem countRaf_schedule_render (x : AppData Ms Mdl GMs) :
    countRaf (schedule_render x).trace =
      countRaf x.trace +
        (match x.scheduled_render_handle with
         | some _ => 0
         | none => 1) := by
  unfold schedule_render
  cases hx : x.scheduled_render_handle <;>
    simp [hx, countRaf_append, countRaf]

/-- One `App::update` call whose update function issues `Render` with no
effects and no post-render callbacks: it schedules a render when none is
pending (one animation-frame request) and is a no-op on the scheduler
when one is pending (no request), never rendering synchronously. -/
theorem update_render_only (fuel : Nat) (cfg : AppCfg Ms Mdl GMs)
    (s : AppData Ms Mdl GMs) (m : Ms) (mdl : Mdl)
    (hupd : ∀ m' mdl',
      (cfg.update m' mdl').2.should_render = ShouldRender.Render ∧
      (cfg.update m' mdl').2.effects = [] ∧
      (cfg.update m' mdl').2.after_next_render = [])
    (hm : s.model = some mdl) (hfuel : 3 ≤ fuel) :
    ∃ s2, update fuel cfg s m = some s2 ∧
      s2.model = some (cfg.update m mdl).1 ∧
      s2.main_el_vdom = s.main_el_vdom ∧
      s2.after_next_render_callbacks = s.after_next_render_callbacks ∧
      s2.scheduled_render_handle =
        (match s.scheduled_render_handle with
         | some h => some h
         | none => some s.next_handle) ∧
      countRendered s2.trace = countRendered s.trace ∧
      countRaf s2.trace = countRaf s.trace +
        (match s.scheduled_render_handle with
         | some _ => 0
         | none => 1) := by
  obtain ⟨k, rfl⟩ : ∃ k, fuel = k + 3 := ⟨fuel - 3, by omega⟩
  have hm' : ({ s with trace := s.trace ++ [Event.updateCalled m] } :
      AppData Ms Mdl GMs).model = some mdl := hm
  have hstep : update (k + 3) cfg s m =
      some (schedule_render (post_update_state cfg
        { s with trace := s.trace ++ [Event.updateCalled m] } m mdl)) := by
    unfold update
    rw [show k + 3 = (k + 2) + 1 from rfl]
    unfold process_cmd_and_msg_queue
    simp only [dequePopFront]
    rw [process_queue_message_succ_eq (k + 1) cfg _ m mdl hm']
    rw [(hupd m mdl).1]
    simp only [(hupd m mdl).2.1]
    exact process_cmd_and_msg_queue_nil k cfg _
  refine ⟨_, hstep, ?_, ?_, ?_, ?_, ?_, ?_⟩
  · rw [schedule_render_model]
    rfl
  · rw [schedule_render_main]
    rfl
  · rw [schedule_render_callbacks]
    simp [post_update_state, (hupd m mdl).2.2]
  · rw [schedule_render_handle_eq]
    rfl
  · rw [countRendered_schedule_render]
    simp [post_update_state, countRendered_append, countRendered_map_listener,
      countRendered]
  · rw [countRaf_schedule_render]
    have : countRaf (post_update_state cfg
        { s with trace := s.trace ++ [Event.updateCalled m] } m mdl).trace =
        countRaf s.trace := by
      simp [post_update_state, countRaf_append, countRaf_map_listener, countRaf]
    rw [this]
    rfl

/-- Once a render is pending, any further sequence of `Render`-only
updates requests no additional animation frame and renders nothing: the
scheduler state, baseline tree, callback queue and both render counters
are untouched. -/
theorem update_seq_saturated (fuel : Nat) (cfg : AppCfg Ms Mdl GMs)
    (hupd : ∀ m' mdl',
      (cfg.update m' mdl').2.should_render = ShouldRender.Render ∧
      (cfg.update m' mdl').2.effects = [] ∧
      (cfg.update m' mdl').2.after_next_render = [])
    (hfuel : 3 ≤ fuel) (msgs : List Ms) :
    ∀ s : AppData Ms Mdl GMs, s.model.isSome →
      s.scheduled_render_handle.isSome →
    ∃ s2, update_seq fuel cfg s msgs = some s2 ∧
      s2.model.isSome ∧
      s2.scheduled_render_handle = s.scheduled_render_handle ∧
      s2.main_el_vdom = s.main_el_vdom ∧
      s2.after_next_render_callbacks = s.after_next_render_callbacks ∧
      countRendered s2.trace = countRendered s.trace ∧
      countRaf s2.trace = countRaf s.trace := by
  induction msgs with
  | nil =>
    intro s hm hh
    exact ⟨s, rfl, hm, rfl, rfl, rfl, rfl, rfl⟩
  | cons m ms ih =>
    intro s hm hh
    obtain ⟨mdl, hmdl⟩ := Option.isSome_iff_exists.mp hm
    obtain ⟨h0, hh0⟩ := Option.isSome_iff_exists.mp hh
    obtain ⟨s1, hs1, hs1m, hs1v, hs1cb, hs1h, hs1rend, hs1raf⟩ :=
      update_render_only fuel cfg s m mdl hupd hmdl hfuel
    rw [hh0] at hs1h hs1raf
    simp only at hs1h hs1raf
    obtain ⟨s2, hs2, hs2m, hs2h, hs2v, hs2cb, hs2rend, hs2raf⟩ :=
      ih s1 (by rw [hs1m]; rfl) (by rw [hs1h]; rfl)
    refine ⟨s2, ?_, hs2m, ?_, ?_, ?_, ?_, ?_⟩
    · unfold update_seq
      rw [hs1]
      exact hs2
    · rw [hs2h, hs1h, hh0]
    · rw [hs2v, hs1v]
    · rw [hs2cb, hs1cb]
    · rw [hs2rend, hs1rend]
    · rw [hs2raf, hs1raf]
      omega

/-- C1: at most one scheduled render exists at any instant —
`schedule_render` stores a handle only when none is stored and is a
no-op while one is outstanding — so a sequence of `App::update` calls
each issuing `Render` within one frame interval requests exactly one
animation frame, renders nothing synchronously, leaves one pending
handle (on which `schedule_render` is idempotent), and when the host
frame fires exactly one render occurs and the handle is cleared. -/
theorem render_requests_coalesce (fuel : Nat) (cfg : AppCfg Ms Mdl GMs)
    (s : AppData Ms Mdl GMs) (msgs : List Ms) (mdl : Mdl)
    (hupd : ∀ m' mdl',
      (cfg.update m' mdl').2.should_render = ShouldRender.Render ∧
      (cfg.update m' mdl').2.effects = [] ∧
      (cfg.update m' mdl').2.after_next_render = [])
    (hm : s.model = some mdl)
    (hh : s.scheduled_render_handle = none)
    (hcb : s.after_next_render_callbacks = [])
    (hv : s.main_el_vdom.isSome)
    (hne : msgs ≠ []) (hfuel : 3 ≤ fuel) :
    ∃ s1 s2, update_seq fuel cfg s msgs = some s1 ∧
      countRaf s1.trace = countRaf s.trace + 1 ∧
      countRendered s1.trace = countRendered s.trace ∧
      s1.scheduled_render_handle.isSome ∧
      schedule_render s1 = s1 ∧
      fire_animation_frame fuel cfg s1 = some s2 ∧
      countRendered s2.trace = countRendered s.trace + 1 ∧
      s2.scheduled_render_handle = none := by
  cases msgs with
  | nil => exact absurd rfl hne
  | cons m ms =>
    obtain ⟨sa, hsa, hsam, hsav, hsacb, hsah, hsarend, hsaraf⟩ :=
      update_render_only fuel cfg s m mdl hupd hm hfuel
    rw [hh] at hsah hsaraf
    obtain ⟨s1, hs1, hs1m, hs1h, hs1v, hs1cb, hs1rend, hs1raf⟩ :=
      update_seq_saturated fuel cfg hupd hfuel ms sa
        (by rw [hsam]; rfl) (by rw [hsah]; rfl)
    have hseq : update_seq fuel cfg s (m :: ms) = some s1 := by
      unfold update_seq
      rw [hsa]
      exact hs1
    have h1h : s1.scheduled_render_handle = some s.next_handle := by
      rw [hs1h, hsah]
    have h1raf : countRaf s1.trace = countRaf s.trace + 1 := by
      rw [hs1raf, hsaraf]
    have h1rend : countRendered s1.trace = countRendered s.trace := by
      rw [hs1rend, hsarend]
    have h1cb : s1.after_next_render_callbacks = [] := by
      rw [hs1cb, hsacb, hcb]
    obtain ⟨mdl1, hmdl1⟩ := Option.isSome_iff_exists.mp hs1m
    obtain ⟨oldTree, holdTree⟩ : ∃ t, s1.main_el_vdom = some t := by
      rw [hs1v, hsav]
      exact Option.isSome_iff_exists.mp hv
    obtain ⟨k, rfl⟩ : ∃ k, fuel = k + 3 := ⟨fuel - 3, by omega⟩
    have hfire : fire_animation_frame (k + 3) cfg s1 =
        some (rendered_state cfg
          { s1 with scheduled_render_handle := none } mdl1) := by
      unfold fire_animation_frame
      rw [h1h]
      simp only
      have hmdl1' : ({ s1 with scheduled_render_handle := none } :
          AppData Ms Mdl GMs).model = some mdl1 := hmdl1
      have holdTree' : ({ s1 with scheduled_render_handle := none } :
          AppData Ms Mdl GMs).main_el_vdom = some oldTree := holdTree
      rw [show k + 3 = (k + 2) + 1 from rfl,
        rerender_vdom_succ_eq (k + 2) cfg _ mdl1 oldTree hmdl1' holdTree']
      rw [show ({ s1 with scheduled_render_handle := none } :
          AppData Ms Mdl GMs).after_next_render_callbacks = [] from h1cb]
      simp only [List.map_nil]
      exact process_cmd_and_msg_queue_nil (k + 1) cfg _
    refine ⟨s1, _, hseq, h1raf, h1rend, by rw [h1h]; rfl, ?_, hfire, ?_, rfl⟩
    · unfold schedule_render
      rw [h1h]
    · simp only [rendered_state]
      rw [countRendered_append, h1rend]
      rfl

/-- Witness for C1: three `Render`-issuing updates on the concrete
counter app request exactly one animation frame, and firing the frame
renders exactly once. -/
theorem render_requests_coalesce_witness :
    ∃ s1 s2, update_seq 3 exCfg exState [1, 2, 3] = some s1 ∧
      countRaf s1.trace = countRaf exState.trace + 1 ∧
      countRendered s1.trace = countRendered exState.trace ∧
      s1.scheduled_render_handle.isSome ∧
      schedule_render s1 = s1 ∧
      fire_animation_frame 3 exCfg s1 = some s2 ∧
      countRendered s2.trace = countRendered exState.trace + 1 ∧
      s2.scheduled_render_handle = none :=
  render_requests_coalesce 3 exCfg exState [1, 2, 3] 0
    (fun _ _ => ⟨rfl, rfl, rfl⟩) rfl rfl rfl rfl
    (by intro h; exact List.noConfusion h) (by omega)

end Seed
